import Mathlib

/-!
Verification development for the transformer-srl inference and decoding
pipeline.  The embedded code comprises:

* the frame disambiguation routine `SrlBertVerbatlas.decode_frames`
  (srl_bert_verbatlas/models.py, lines 227-261) together with the
  frame-row extraction performed by `forward` (lines 160-164);
* the metric path of `forward` (lines 196-221) and `decode` (lines 263-269);
* the predictor's batching, regrouping and rendering code
  (srl_transformers/predictors.py): `make_srl_string` (lines 22-44),
  `tokens_to_instances` / `_sentence_to_srl_instances` splitting, and
  `predict_batch_json` (lines 57-118).

Python strings are modelled at character granularity (`String.data`),
probability tensors as lists of rationals, and the external model, tokenizer
and instance splitter as function parameters.
-/

/-! ### Character-level semantics of the Python string operations used -/

/-- Python `s.startswith(p)` on character sequences. -/
def strStartsWith (s p : String) : Bool :=
  p.data.isPrefixOf s.data

/-- Python slice `s[n:]` (drop the first `n` characters). -/
def strDrop (s : String) (n : Nat) : String :=
  ⟨s.data.drop n⟩

/-- Python `s.replace("V", rep)`: with a single-character pattern, every
occurrence of the character `V` in `s` is replaced by `rep`
(predictors.py line 36). -/
def replaceV (s rep : String) : String :=
  ⟨s.data.flatMap (fun c => if c = 'V' then rep.data else [c])⟩

/-- Python `sep.join(parts)`. -/
def joinSep (sep : String) : List String → String
  | [] => ""
  | [x] => x
  | x :: y :: xs => x ++ sep ++ joinSep sep (y :: xs)

/-! ### Description renderer: `make_srl_string` (predictors.py lines 22-44) -/

/-- Loop state of `make_srl_string`: the emitted output pieces (`window`)
and the open span buffer (`chunk`). -/
structure SrlScanState where
  window : List String
  chunk : List String
deriving DecidableEq

/-- Python `"[" + " ".join(chunk) + "]"` (predictors.py line 32). -/
def bracketSpan (chunk : List String) : String :=
  "[" ++ joinSep " " chunk ++ "]"

/-- Flush of a non-empty open span buffer into the window
(predictors.py lines 31-33 and 41-42). -/
def flushWindow (s : SrlScanState) : List String :=
  if s.chunk = [] then s.window else s.window ++ [bracketSpan s.chunk]

/-- One iteration of the scan loop of `make_srl_string`
(predictors.py lines 27-39); `p = (token, tag)`. -/
def srlStep (frame : String) (s : SrlScanState) (p : String × String) : SrlScanState :=
  if strStartsWith p.2 "I-" then
    { s with chunk := s.chunk ++ [p.1] }
  else if strStartsWith p.2 "B-" then
    { window := flushWindow s, chunk := [strDrop (replaceV p.2 frame) 2 ++ ": " ++ p.1] }
  else if p.2 = "O" then
    { window := flushWindow s ++ [p.1], chunk := [] }
  else
    { window := flushWindow s, chunk := [] }

/-- `SrlTransformersPredictor.make_srl_string` (predictors.py lines 22-44). -/
def make_srl_string (words tags : List String) (frame : String) : String :=
  joinSep " " (flushWindow ((words.zip tags).foldl (srlStep frame) ⟨[], []⟩))

/-! ### Frame disambiguation: `decode_frames` (models.py lines 227-261)

The frame-label vocabulary is a duplicate-free list of labels whose
positions are the label indices (`get_token_index` / `get_token_from_index`);
the lexicon `lemma_frame_dict` is an association list lemma -> candidates. -/

abbrev Lexicon := List (String × List String)

/-- Python `self.lemma_frame_dict.get(l, [])` (models.py line 241). -/
def lexLookup (lex : Lexicon) (lm : String) : List String :=
  match lex.find? (fun p => p.1 == lm) with
  | some p => p.2
  | none => []

/-- The comprehension filter `if l in label_set` (models.py line 245):
candidates restricted to the frame-label vocabulary. -/
def knownCandidates (vocab : List String) (cands : List String) : List String :=
  cands.filter (fun l => vocab.contains l)

/-- Python `[get_token_index(l) for l in cl if l in label_set]`
(models.py lines 244-247). -/
def candidateIds (vocab : List String) (cands : List String) : List Nat :=
  (knownCandidates vocab cands).map (fun l => vocab.indexOf l)

/-- The filtered candidate set of a lemma: lexicon candidates restricted to
the frame-label vocabulary. -/
def filteredCandidates (vocab : List String) (lex : Lexicon) (lm : String) : List String :=
  knownCandidates vocab (lexLookup lex lm)

/-- Index of the first maximum of a list, 0 on the empty list: the
argmax semantics of `np.argmax` / `torch.argmax` used at models.py
lines 233, 254 and 256 (first occurrence wins on ties). -/
def argmaxIdx : List ℚ → Nat
  | [] => 0
  | x :: xs =>
    let r := argmaxIdx xs
    if xs.getD r x ≤ x then 0 else r + 1

/-- The probability that `np.take(fp, cl)` reads for candidate label `c`:
the entry of `fp` at the vocabulary index of `c`. -/
def candProb (vocab : List String) (fp : List ℚ) (c : String) : ℚ :=
  fp.getD (vocab.indexOf c) 0

/-- Loop body of the restricted frame prediction (models.py lines 250-256):
`np.take(fp, cl)`, the emptiness test, and the two argmax paths, followed by
`get_token_from_index` (line 259). -/
def decodeOneFrame (vocab : List String) (cl : List Nat) (fp : List ℚ) : String :=
  let fp_candidates := cl.map (fun i => fp.getD i 0)
  if 0 < fp_candidates.length then
    vocab.getD (cl.getD (argmaxIdx fp_candidates) 0) ""
  else
    vocab.getD (argmaxIdx fp) ""

/-- `SrlBertVerbatlas.decode_frames` (models.py lines 227-261), restricted to
the fields it reads and writes: from the per-instance frame probability rows
and lemmas it produces the list `output_dict["frame_tags"]`. -/
def decode_frames (vocab : List String) (lex : Lexicon) (restrict : Bool)
    (lemmas : List String) (fps : List (List ℚ)) : List String :=
  if restrict = false then
    fps.map (fun fp => vocab.getD (argmaxIdx fp) "")
  else
    ((lemmas.map (fun lm => candidateIds vocab (lexLookup lex lm))).zip fps).map
      (fun p => decodeOneFrame vocab p.1 p.2)

/-! ### Frame-row extraction in `forward` (models.py lines 160-164, 182-183)

`verbs_embeddings = embedded_text_input[frame_indicator == 1]` selects, in
batch order, the rows whose indicator is set, flattening across the batch;
`lemmas` is the flattened concatenation of each instance's metadata list. -/

/-- One batch element as seen by the frame-decoding path: its metadata
lemmas, its frame indicator, and the frame probability row that the
projection and softmax would produce at each token position. -/
structure FrameInstance where
  lemmas : List String
  frame_indicator : List Bool
  rows : List (List ℚ)
deriving DecidableEq

/-- Rows of one instance selected by `frame_indicator == 1`. -/
def instanceFrameRows (x : FrameInstance) : List (List ℚ) :=
  (x.rows.zip x.frame_indicator).filterMap (fun p => if p.2 then some p.1 else none)

/-- The batched boolean-mask selection `embedded_text_input[frame_indicator == 1]`
(models.py line 161), flattened across the batch. -/
def batchFrameProbs (batch : List FrameInstance) : List (List ℚ) :=
  (batch.map instanceFrameRows).flatten

/-- Python `lemmas = [l for x in metadata for l in x["lemmas"]]`
(models.py line 183). -/
def batchLemmas (batch : List FrameInstance) : List String :=
  (batch.map FrameInstance.lemmas).flatten

/-- The frame tags produced for a batch: `forward`'s row extraction followed
by `decode_frames` (models.py lines 160-164 and 227-261). -/
def decodeBatchFrameTags (vocab : List String) (lex : Lexicon) (restrict : Bool)
    (batch : List FrameInstance) : List String :=
  decode_frames vocab lex restrict (batchLemmas batch) (batchFrameProbs batch)

/-! ### The metric path of `forward` (models.py lines 196-221) and `decode` -/

/-- The fields of `output_dict` consumed by `decode` and the metric path. -/
structure OutputDict where
  frame_logits : List (List ℚ)
  frame_probabilities : List (List ℚ)
  lemmas : List String
  tags : List (List String)
  frame_tags : List String
deriving DecidableEq

/-- `decode_frames` acting on the output dictionary (models.py lines 227-261):
only `frame_tags` is (re)written. -/
def decodeFramesDict (vocab : List String) (lex : Lexicon) (restrict : Bool)
    (od : OutputDict) : OutputDict :=
  { od with frame_tags := decode_frames vocab lex restrict od.lemmas od.frame_probabilities }

/-- `SrlBertVerbatlas.decode` (models.py lines 263-269): the inherited
`super().decode` — external to this repository, so modelled as an arbitrary
function parameter — followed by `decode_frames`. -/
def decodeDict (superDecode : OutputDict → OutputDict) (vocab : List String)
    (lex : Lexicon) (restrict : Bool) (od : OutputDict) : OutputDict :=
  decodeFramesDict vocab lex restrict (superDecode od)

/-- The predicted BIO tag sequences the metric path feeds (after conll
conversion) to the span metric: `self.decode(output_dict, False).pop("tags")`
(models.py line 204). -/
def metricPredictedTags (superDecode : OutputDict → OutputDict) (vocab : List String)
    (lex : Lexicon) (od : OutputDict) : List (List String) :=
  (decodeDict superDecode vocab lex false od).tags

/-- The logits the metric path feeds to the frame metric:
`self.f1_frame_metric(frame_logits, ...)` (models.py line 221). -/
def metricFrameLogits (od : OutputDict) : List (List ℚ) :=
  od.frame_logits

/-! ### Batching: `group_by_count` and the padding strip
(predictors.py lines 77-87) -/

/-- AllenNLP `group_by_count(iterable, count, None)`: chunks of size `count`,
the last one padded with `none`.  With `count = 0` the underlying
`zip_longest` over zero iterators yields nothing. -/
def groupByCount {α : Type} (count : Nat) (l : List α) : List (List (Option α)) :=
  if h : l.isEmpty = true ∨ count = 0 then []
  else ((l.take count).map some ++ List.replicate (count - l.length) none)
        :: groupByCount count (l.drop count)
termination_by l.length
decreasing_by
  push_neg at h
  simp only [List.length_drop]
  have h1 : 0 < l.length := by
    cases l with
    | nil => simp at h
    | cons a l => simp
  omega

/-- Python `batched_instances[-1] = [i for i in batched_instances[-1] if i is not None]`
(predictors.py lines 81-83): the padding entries of the final chunk are removed. -/
def stripLast {α : Type} : List (List (Option α)) → List (List (Option α))
  | [] => []
  | [b] => [b.filter (fun o => o.isSome)]
  | b :: b2 :: rest => b :: stripLast (b2 :: rest)

/-! ### predict_batch_json (predictors.py lines 57-118) -/

/-- The per-instance model output fields read by `predict_batch_json`
(`forward_on_instances` splits the batched output dictionary into one
dictionary per instance). -/
structure ModelOut where
  words : List String
  verb : String
  tags : List String
  frame_tags : String
deriving DecidableEq

/-- The per-predicate entry of the response (predictors.py lines 109-114). -/
structure VerbDict where
  verb : String
  description : String
  tags : List String
  frame : String
deriving DecidableEq

/-- One per-sentence response object (predictors.py lines 90, 99, 108, 115). -/
structure SentenceResult where
  words : List String
  verbs : List VerbDict
deriving DecidableEq

/-- Assembly of one verb dictionary from a model output
(predictors.py lines 103-114). -/
def mkVerbDict (o : ModelOut) : VerbDict :=
  { verb := o.verb
  , description := make_srl_string o.words o.tags o.frame_tags
  , tags := o.tags
  , frame := o.frame_tags }

/-- The inner regrouping loop for one sentence (predictors.py lines 93-116):
a sentence with `c = 0` re-tokenizes its input; otherwise it consumes the
next `c` outputs, its `words` field being written once per output (the last
write wins) and its verb entries appended in output order. -/
def assembleSentence {S : Type} (tokenize : S → List String)
    (outs : List ModelOut) (s : S) (c : Nat) : SentenceResult :=
  if c = 0 then
    { words := tokenize s, verbs := [] }
  else
    { words := match (outs.take c).getLast? with
               | some o => o.words
               | none => []
    , verbs := (outs.take c).map mkVerbDict }

/-- The regrouping loop over sentences (predictors.py lines 92-116), with
`outs` playing the role of the `output_index` cursor into `outputs`. -/
def regroupOutputs {S : Type} (tokenize : S → List String) :
    List ModelOut → List (S × Nat) → List SentenceResult
  | _, [] => []
  | outs, (s, c) :: rest =>
      assembleSentence tokenize outs s c :: regroupOutputs tokenize (outs.drop c) rest

/-- `SrlTransformersPredictor.predict_batch_json` (predictors.py lines 57-118).
The tokenizer, the per-sentence instance splitter (`_sentence_to_srl_instances`)
and the model (`forward_on_instances`) are external collaborators passed as
functions.  The batches dispatched to the model never contain a padding entry
(proved below), so flattening the model outputs is the `filterMap` of the
stripped batches under `runModel`. -/
def predict_batch_json {S I : Type} (tokenize : S → List String) (split : S → List I)
    (runModel : I → ModelOut) (inputs : List S) : List SentenceResult :=
  if ((inputs.map split).flatten).isEmpty then
    inputs.map (fun s => { words := tokenize s, verbs := [] })
  else
    regroupOutputs tokenize
      ((((stripLast (groupByCount inputs.length ((inputs.map split).flatten))).flatten).filterMap id).map runModel)
      (inputs.zip ((inputs.map split).map List.length))

/-! ## Helper lemmas -/

theorem getD_eq_getElem {α : Type} (l : List α) (i : Nat) (d : α) (h : i < l.length) :
    l.getD i d = l[i] := by
  simp [List.getD, List.getElem?_eq_getElem, h]

theorem getD_map_in {α β : Type} (f : α → β) (l : List α) (i : Nat) (d : β) (d2 : α)
    (h : i < l.length) : (l.map f).getD i d = f (l.getD i d2) := by
  rw [getD_eq_getElem _ _ _ (by simpa using h), getD_eq_getElem _ _ _ h, List.getElem_map]

theorem getD_indexOf (vocab : List String) (c : String) (h : c ∈ vocab) :
    vocab.getD (vocab.indexOf c) "" = c := by
  have hlt : vocab.indexOf c < vocab.length := List.indexOf_lt_length.mpr h
  rw [getD_eq_getElem _ _ _ hlt]
  exact List.getElem_indexOf hlt

theorem strStartsWith_iff (s p : String) : strStartsWith s p = true ↔ p.data <+: s.data := by
  simp [strStartsWith, List.isPrefixOf_iff_prefix]

theorem flatMapV_id (rep : List Char) : ∀ cs : List Char, 'V' ∉ cs →
    cs.flatMap (fun c => if c = 'V' then rep else [c]) = cs
  | [], _ => rfl
  | c :: cs, h => by
    simp only [List.mem_cons, not_or] at h
    have hc : ¬ c = 'V' := fun he => h.1 he.symm
    simp [List.flatMap_cons, hc, flatMapV_id rep cs h.2]

theorem replaceV_not_mem (s rep : String) (h : 'V' ∉ s.data) : replaceV s rep = s := by
  cases s with
  | mk data => simp [replaceV, flatMapV_id rep.data data h]

/-! ## Renderer claims -/

/-- C9: on words `["The","cat","sees","the","mouse"]`, tags
`["B-ARG0","I-ARG0","B-V","B-ARG1","I-ARG1"]` and frame `"SEE"`,
`make_srl_string` returns exactly
`"[ARG0: The cat] [SEE: sees] [ARG1: the mouse]"`. -/
theorem make_srl_string_simple_case :
    make_srl_string ["The", "cat", "sees", "the", "mouse"]
      ["B-ARG0", "I-ARG0", "B-V", "B-ARG1", "I-ARG1"] "SEE"
      = "[ARG0: The cat] [SEE: sees] [ARG1: the mouse]" := by
  decide

/-- C3 counterexample: on the B-tag `"B-ARGM-ADV"`, whose role label merely
contains the character `V`, the renderer does not seed the span buffer with
the unmodified role label `ARGM-ADV`: `tag.replace("V", frame)` rewrites the
role to `ARGM-ADSEE`, so the claim as stated is false. -/
theorem make_srl_string_adv_counterexample :
    make_srl_string ["quickly"] ["B-ARGM-ADV"] "SEE" = "[ARGM-ADSEE: quickly]"
    ∧ make_srl_string ["quickly"] ["B-ARGM-ADV"] "SEE" ≠ "[ARGM-ADV: quickly]" := by
  decide

/-- C3 (amended): for a word whose tag starts with `B-`, the span buffer is
seeded with the tag after every occurrence of the character `V` in it has
been replaced by the resolved frame label, the 2-character prefix stripped,
then `": "` and the word.  Hence a role label containing no `V` at all is
seeded unmodified, the literal role `V` (tag `B-V`) is replaced by the frame
label, but a role label that merely contains a `V` (such as `ARGM-ADV`) is
altered as well. -/
theorem srlStep_b_tag_substitution (frame : String) (s : SrlScanState) (w t : String)
    (hb : strStartsWith t "B-" = true) :
    srlStep frame s (w, t)
        = { window := flushWindow s, chunk := [strDrop (replaceV t frame) 2 ++ ": " ++ w] }
    ∧ ('V' ∉ t.data →
        srlStep frame s (w, t)
          = { window := flushWindow s, chunk := [strDrop t 2 ++ ": " ++ w] })
    ∧ (t = "B-V" →
        srlStep frame s (w, t)
          = { window := flushWindow s, chunk := [frame ++ ": " ++ w] }) := by
  obtain ⟨rest, hrest⟩ := (strStartsWith_iff t "B-").mp hb
  have hdata : t.data = 'B' :: '-' :: rest := by
    simpa using hrest.symm
  have hI : strStartsWith t "I-" = false := by
    simp [strStartsWith, hdata, List.isPrefixOf]
  refine ⟨?_, ?_, ?_⟩
  · simp [srlStep, hI, hb]
  · intro hv
    simp [srlStep, hI, hb, replaceV_not_mem t frame hv]
  · intro ht
    subst ht
    have hframe : strDrop (replaceV "B-V" frame) 2 = frame := by
      cases frame
      simp [replaceV, strDrop]
    simp [srlStep, hI, hb, hframe]

/-- C10: a word whose tag neither starts with `I-` nor starts with `B-` nor
equals `O` causes the open span buffer to be flushed, and the word itself is
omitted: the resulting state is the flushed window with an empty buffer,
independent of the word. -/
theorem srlStep_unknown_tag_flush_omit (frame : String) (s : SrlScanState) (w t : String)
    (hI : strStartsWith t "I-" = false) (hB : strStartsWith t "B-" = false)
    (hO : t ≠ "O") :
    srlStep frame s (w, t) = { window := flushWindow s, chunk := [] } := by
  simp [srlStep, hI, hB, hO]

/-- Witness for the amended C3 theorem at tag `"B-V"` and at the V-free tag
`"B-ARG0"`. -/
theorem srlStep_b_tag_substitution_app :
    srlStep "SEE" ⟨[], []⟩ ("sees", "B-V")
        = { window := [], chunk := ["SEE: sees"] }
    ∧ srlStep "SEE" ⟨[], []⟩ ("cat", "B-ARG0")
        = { window := [], chunk := ["ARG0: cat"] } := by
  constructor
  · have h := (srlStep_b_tag_substitution "SEE" ⟨[], []⟩ "sees" "B-V" (by decide)).2.2 rfl
    rw [h]
    decide
  · have h := (srlStep_b_tag_substitution "SEE" ⟨[], []⟩ "cat" "B-ARG0" (by decide)).2.1
      (by decide)
    rw [h]
    decide

/-- Witness for the C10 theorem at the out-of-scheme tag `"X"`. -/
theorem srlStep_unknown_tag_flush_omit_app :
    srlStep "SEE" ⟨["a"], ["b"]⟩ ("word", "X")
      = { window := ["a", "[b]"], chunk := [] } := by
  have h := srlStep_unknown_tag_flush_omit "SEE" ⟨["a"], ["b"]⟩ "word" "X"
    (by decide) (by decide) (by decide)
  rw [h]
  decide

/-! ## Specification of the stable argmax -/

theorem argmaxIdx_lt (l : List ℚ) (h : l ≠ []) : argmaxIdx l < l.length := by
  match l with
  | x :: xs =>
    simp only [argmaxIdx]
    split
    · simp
    · rename_i hlt
      have hxs : xs ≠ [] := by
        intro he
        subst he
        simp [argmaxIdx] at hlt
      have := argmaxIdx_lt xs hxs
      simp only [List.length_cons]
      omega

theorem argmaxIdx_le (l : List ℚ) (k : Nat) (hk : k < l.length) :
    l.getD k 0 ≤ l.getD (argmaxIdx l) 0 := by
  match l with
  | [] => simp at hk
  | x :: xs =>
    by_cases hxs : xs = []
    · subst hxs
      have hk0 : k = 0 := by simpa using hk
      subst hk0
      simp [argmaxIdx]
    · have hr : argmaxIdx xs < xs.length := argmaxIdx_lt xs hxs
      have hgd : xs.getD (argmaxIdx xs) x = xs.getD (argmaxIdx xs) 0 := by
        rw [getD_eq_getElem _ _ _ hr, getD_eq_getElem _ _ _ hr]
      simp only [argmaxIdx]
      split
      · rename_i hif
        match k with
        | 0 => simp
        | k + 1 =>
          have hk2 : k < xs.length := by simpa using hk
          calc (x :: xs).getD (k + 1) 0 = xs.getD k 0 := List.getD_cons_succ
            _ ≤ xs.getD (argmaxIdx xs) 0 := argmaxIdx_le xs k hk2
            _ = xs.getD (argmaxIdx xs) x := hgd.symm
            _ ≤ x := hif
            _ = (x :: xs).getD 0 0 := List.getD_cons_zero.symm
      · rename_i hif
        push_neg at hif
        match k with
        | 0 =>
          simp only [List.getD_cons_zero, List.getD_cons_succ]
          calc x ≤ xs.getD (argmaxIdx xs) x := le_of_lt hif
            _ = xs.getD (argmaxIdx xs) 0 := hgd
        | k + 1 =>
          have hk2 : k < xs.length := by simpa using hk
          simp only [List.getD_cons_succ]
          exact argmaxIdx_le xs k hk2

theorem argmaxIdx_first (l : List ℚ) (k : Nat) (hk : k < argmaxIdx l) :
    l.getD k 0 < l.getD (argmaxIdx l) 0 := by
  match l with
  | [] => simp [argmaxIdx] at hk
  | x :: xs =>
    by_cases hif : xs.getD (argmaxIdx xs) x ≤ x
    · simp only [argmaxIdx, if_pos hif] at hk
      omega
    · have hxs : xs ≠ [] := by
        intro he
        subst he
        simp [argmaxIdx] at hif
      have hr : argmaxIdx xs < xs.length := argmaxIdx_lt xs hxs
      have hgd : xs.getD (argmaxIdx xs) x = xs.getD (argmaxIdx xs) 0 := by
        rw [getD_eq_getElem _ _ _ hr, getD_eq_getElem _ _ _ hr]
      push_neg at hif
      simp only [argmaxIdx, if_neg (not_le.mpr hif)] at hk ⊢
      match k with
      | 0 =>
        simp only [List.getD_cons_zero, List.getD_cons_succ]
        calc x < xs.getD (argmaxIdx xs) x := hif
          _ = xs.getD (argmaxIdx xs) 0 := hgd
      | k + 1 =>
        have hk2 : k < argmaxIdx xs := by omega
        simp only [List.getD_cons_succ]
        exact argmaxIdx_first xs k hk2

/-! ## Frame disambiguation claims -/

theorem decode_frames_restrict_getElem (vocab : List String) (lex : Lexicon)
    (lemmas : List String) (fps : List (List ℚ)) (i : Nat)
    (hi : i < lemmas.length) (hlen : fps.length = lemmas.length) :
    (decode_frames vocab lex true lemmas fps)[i]?
      = some (decodeOneFrame vocab (candidateIds vocab (lexLookup lex lemmas[i]))
          (fps.getD i [])) := by
  have hfi : i < fps.length := by omega
  have h1 : decode_frames vocab lex true lemmas fps
      = ((lemmas.map (fun lm => candidateIds vocab (lexLookup lex lm))).zip fps).map
          (fun p => decodeOneFrame vocab p.1 p.2) := by
    simp [decode_frames]
  have hzl : i < (((lemmas.map (fun lm => candidateIds vocab (lexLookup lex lm))).zip fps).map
      (fun p => decodeOneFrame vocab p.1 p.2)).length := by
    simp only [List.length_map, List.length_zip]
    omega
  rw [h1, List.getElem?_eq_getElem hzl]
  simp only [List.getElem_map, List.getElem_zip]
  rw [getD_eq_getElem fps i [] hfi]

theorem decode_frames_unrestricted_getElem (vocab : List String) (lex : Lexicon)
    (lemmas : List String) (fps : List (List ℚ)) (i : Nat) (hfi : i < fps.length) :
    (decode_frames vocab lex false lemmas fps)[i]?
      = some (vocab.getD (argmaxIdx (fps.getD i [])) "") := by
  have h1 : decode_frames vocab lex false lemmas fps
      = fps.map (fun fp => vocab.getD (argmaxIdx fp) "") := by
    simp [decode_frames]
  have hml : i < (fps.map (fun fp => vocab.getD (argmaxIdx fp) "")).length := by
    simpa using hfi
  rw [h1, List.getElem?_eq_getElem hml]
  simp only [List.getElem_map]
  rw [getD_eq_getElem fps i [] hfi]

/-- C1: for a lemma whose filtered (lexicon-and-vocabulary) candidate list is
non-empty, `decode_frames` with `restrict = true` returns for that instance a
label belonging to that filtered candidate list; and the chosen entry is a
stable argmax over the candidates: no candidate has a strictly higher
probability in the instance's frame distribution, and every earlier candidate
in the filtered list has a strictly lower one (first maximum wins). -/
theorem decode_frames_restrict_in_candidates (vocab : List String) (lex : Lexicon)
    (lemmas : List String) (fps : List (List ℚ)) (i : Nat)
    (hi : i < lemmas.length) (hlen : fps.length = lemmas.length)
    (hne : filteredCandidates vocab lex lemmas[i] ≠ []) :
    ∃ j : Nat, ∃ hj : j < (filteredCandidates vocab lex lemmas[i]).length,
      (decode_frames vocab lex true lemmas fps)[i]?
          = some ((filteredCandidates vocab lex lemmas[i]).get ⟨j, hj⟩)
      ∧ (∀ k, ∀ hk : k < (filteredCandidates vocab lex lemmas[i]).length,
          candProb vocab (fps.getD i []) ((filteredCandidates vocab lex lemmas[i]).get ⟨k, hk⟩)
            ≤ candProb vocab (fps.getD i [])
                ((filteredCandidates vocab lex lemmas[i]).get ⟨j, hj⟩))
      ∧ (∀ k, ∀ hk : k < j,
          candProb vocab (fps.getD i [])
              ((filteredCandidates vocab lex lemmas[i]).get ⟨k, hk.trans hj⟩)
            < candProb vocab (fps.getD i [])
                ((filteredCandidates vocab lex lemmas[i]).get ⟨j, hj⟩)) := by
  have hget := decode_frames_restrict_getElem vocab lex lemmas fps i hi hlen
  have hcl : candidateIds vocab (lexLookup lex lemmas[i])
      = (filteredCandidates vocab lex lemmas[i]).map (fun c => vocab.indexOf c) := rfl
  have hclen : 0 < (filteredCandidates vocab lex lemmas[i]).length :=
    List.length_pos.mpr hne
  have hfpc : (candidateIds vocab (lexLookup lex lemmas[i])).map
        (fun id => (fps.getD i []).getD id 0)
      = (filteredCandidates vocab lex lemmas[i]).map
          (fun c => candProb vocab (fps.getD i []) c) := by
    rw [hcl, List.map_map]
    rfl
  have hfpclen : ((candidateIds vocab (lexLookup lex lemmas[i])).map
      (fun id => (fps.getD i []).getD id 0)).length
      = (filteredCandidates vocab lex lemmas[i]).length := by
    rw [hfpc]
    simp
  have hfpcne : (candidateIds vocab (lexLookup lex lemmas[i])).map
      (fun id => (fps.getD i []).getD id 0) ≠ [] := by
    apply List.ne_nil_of_length_pos
    omega
  have hj0 : argmaxIdx ((candidateIds vocab (lexLookup lex lemmas[i])).map
      (fun id => (fps.getD i []).getD id 0))
      < ((candidateIds vocab (lexLookup lex lemmas[i])).map
          (fun id => (fps.getD i []).getD id 0)).length :=
    argmaxIdx_lt _ hfpcne
  refine ⟨argmaxIdx ((candidateIds vocab (lexLookup lex lemmas[i])).map
      (fun id => (fps.getD i []).getD id 0)), by omega, ?_, ?_, ?_⟩
  · rw [hget]
    congr 1
    show decodeOneFrame vocab (candidateIds vocab (lexLookup lex lemmas[i])) (fps.getD i []) = _
    unfold decodeOneFrame
    rw [if_pos (by omega)]
    set j := argmaxIdx ((candidateIds vocab (lexLookup lex lemmas[i])).map
        (fun id => (fps.getD i []).getD id 0)) with hjdef
    have hjc : j < (filteredCandidates vocab lex lemmas[i]).length := by omega
    have h5 : (candidateIds vocab (lexLookup lex lemmas[i])).getD j 0
        = vocab.indexOf ((filteredCandidates vocab lex lemmas[i]).getD j "") := by
      rw [hcl]
      exact getD_map_in _ _ j 0 "" hjc
    rw [h5, getD_eq_getElem _ _ _ hjc]
    apply getD_indexOf
    have hmem : (filteredCandidates vocab lex lemmas[i])[j]
        ∈ filteredCandidates vocab lex lemmas[i] := List.get_mem _ j hjc
    have := List.mem_filter.mp hmem
    simpa using this.2
  · intro k hk
    have hck : ∀ m, ∀ hm : m < (filteredCandidates vocab lex lemmas[i]).length,
        candProb vocab (fps.getD i []) ((filteredCandidates vocab lex lemmas[i]).get ⟨m, hm⟩)
          = ((candidateIds vocab (lexLookup lex lemmas[i])).map
              (fun id => (fps.getD i []).getD id 0)).getD m 0 := by
      intro m hm
      rw [hfpc, getD_map_in _ _ m 0 "" hm, getD_eq_getElem _ _ _ hm]
      rfl
    rw [hck k hk, hck _ (by omega)]
    exact argmaxIdx_le _ k (by omega)
  · intro k hk
    have hck : ∀ m, ∀ hm : m < (filteredCandidates vocab lex lemmas[i]).length,
        candProb vocab (fps.getD i []) ((filteredCandidates vocab lex lemmas[i]).get ⟨m, hm⟩)
          = ((candidateIds vocab (lexLookup lex lemmas[i])).map
              (fun id => (fps.getD i []).getD id 0)).getD m 0 := by
      intro m hm
      rw [hfpc, getD_map_in _ _ m 0 "" hm, getD_eq_getElem _ _ _ hm]
      rfl
    rw [hck k _, hck _ (by omega)]
    exact argmaxIdx_first _ k hk

/-- Witness for C1: lemma `"see"` has candidates `["B", "A"]`, both known;
the restricted decode picks a label from the filtered candidate list. -/
theorem decode_frames_restrict_in_candidates_app :
    filteredCandidates ["A", "B"] [("see", ["B", "A"])] "see" ≠ []
    ∧ ∃ j : Nat, ∃ hj : j < (filteredCandidates ["A", "B"] [("see", ["B", "A"])] "see").length,
        (decode_frames ["A", "B"] [("see", ["B", "A"])] true ["see"] [[5, 2]])[0]?
          = some ((filteredCandidates ["A", "B"] [("see", ["B", "A"])] "see").get ⟨j, hj⟩) := by
  constructor
  · decide
  · obtain ⟨j, hj, hv, hle, hfirst⟩ :=
      decode_frames_restrict_in_candidates ["A", "B"] [("see", ["B", "A"])] ["see"] [[5, 2]] 0
        (by decide) (by decide) (by decide)
    exact ⟨j, hj, hv⟩

/-- C5: for an instance whose lemma has an empty filtered candidate list
(lemma absent from the lexicon, or all of its candidates out of the
frame-label vocabulary), the restricted decode equals the unrestricted
decode, and both return the label at the global argmax of the instance's
frame distribution. -/
theorem decode_frames_fallback_global_argmax (vocab : List String) (lex : Lexicon)
    (lemmas : List String) (fps : List (List ℚ)) (i : Nat)
    (hi : i < lemmas.length) (hlen : fps.length = lemmas.length)
    (hemp : filteredCandidates vocab lex lemmas[i] = []) :
    (decode_frames vocab lex true lemmas fps)[i]?
        = (decode_frames vocab lex false lemmas fps)[i]?
    ∧ (decode_frames vocab lex true lemmas fps)[i]?
        = some (vocab.getD (argmaxIdx (fps.getD i [])) "") := by
  have hfi : i < fps.length := by omega
  have hget := decode_frames_restrict_getElem vocab lex lemmas fps i hi hlen
  have hcl : candidateIds vocab (lexLookup lex lemmas[i]) = [] := by
    show (filteredCandidates vocab lex lemmas[i]).map (fun c => vocab.indexOf c) = []
    rw [hemp]
    rfl
  have hone : decodeOneFrame vocab [] (fps.getD i []) = vocab.getD (argmaxIdx (fps.getD i [])) "" := by
    simp [decodeOneFrame]
  have htrue : (decode_frames vocab lex true lemmas fps)[i]?
      = some (vocab.getD (argmaxIdx (fps.getD i [])) "") := by
    rw [hget, hcl, hone]
  exact ⟨htrue.trans (decode_frames_unrestricted_getElem vocab lex lemmas fps i hfi).symm, htrue⟩

/-- Witness for C5: the lemma `"unknown"` is absent from the lexicon, so the
restricted decode falls back to the global argmax. -/
theorem decode_frames_fallback_global_argmax_app :
    filteredCandidates ["A", "B"] [("see", ["B", "A"])] "unknown" = []
    ∧ (decode_frames ["A", "B"] [("see", ["B", "A"])] true ["unknown"] [[2, 5]])[0]?
        = (decode_frames ["A", "B"] [("see", ["B", "A"])] false ["unknown"] [[2, 5]])[0]?
    ∧ (decode_frames ["A", "B"] [("see", ["B", "A"])] true ["unknown"] [[2, 5]])[0]?
        = some "B" := by
  obtain ⟨h1, h2⟩ :=
    decode_frames_fallback_global_argmax ["A", "B"] [("see", ["B", "A"])] ["unknown"] [[2, 5]] 0
      (by decide) (by decide) (by decide)
  refine ⟨by decide, h1, h2.trans ?_⟩
  decide

/-! ## Batch decoding with an unmarked predicate (forward lines 160-164) -/

/-- C4 fails on the code: in a batch whose first instance has an all-zero
frame indicator, the boolean-mask selection of `forward` produces one frame
row fewer than there are instances, and `decode_frames` zips the flattened
lemma list against the shifted rows.  Concretely, with vocabulary
`["A", "B"]` and lexicon `see -> [A]`, `run -> [B]`, the sibling (second)
instance decodes to `"A"` when alone, but the two-instance batch returns the
single tag `"B"`: the sibling's distribution is paired with the first
instance's lemma, its own frame label is lost, and the output list no longer
has one entry per instance. -/
theorem decodeBatchFrameTags_zero_indicator_misaligns :
    decodeBatchFrameTags ["A", "B"] [("run", ["B"]), ("see", ["A"])] true
        [⟨["run"], [false], [[1, 0]]⟩, ⟨["see"], [true], [[0, 1]]⟩] = ["B"]
    ∧ decodeBatchFrameTags ["A", "B"] [("run", ["B"]), ("see", ["A"])] true
        [⟨["see"], [true], [[0, 1]]⟩] = ["A"]
    ∧ (decodeBatchFrameTags ["A", "B"] [("run", ["B"]), ("see", ["A"])] true
        [⟨["run"], [false], [[1, 0]]⟩, ⟨["see"], [true], [[0, 1]]⟩]).length ≠ 2 := by
  decide

/-! ## The metric path ignores the lexicon (models.py lines 196-221, 263-269) -/

/-- C8: the gold-comparison metric path decodes with `restrict = false`
(`self.decode(output_dict, False)` at line 204), so for any two lexicon
contents and the same model outputs, the predicted tag sequences handed to
the span metric and the logits handed to the frame metric are identical:
lexicon-based restriction never reaches the metric-computation path.  The
inherited tag decoding `super().decode` is an arbitrary external function of
the output dictionary. -/
theorem metric_path_lexicon_independent (superDecode : OutputDict → OutputDict)
    (vocab : List String) (lex1 lex2 : Lexicon) (od : OutputDict) :
    metricPredictedTags superDecode vocab lex1 od = metricPredictedTags superDecode vocab lex2 od
    ∧ metricFrameLogits od = metricFrameLogits od
    ∧ (decodeDict superDecode vocab lex1 false od).frame_tags
        = (decodeDict superDecode vocab lex2 false od).frame_tags := by
  refine ⟨rfl, rfl, ?_⟩
  simp [decodeDict, decodeFramesDict, decode_frames]

/-! ## Batching: the stripped chunks are exactly the instance list -/

theorem filter_isSome_map_some {α : Type} (xs : List α) :
    (xs.map some).filter (fun o => o.isSome) = xs.map some := by
  induction xs with
  | nil => rfl
  | cons x xs ih => simp [List.filter_cons, ih]

theorem filter_isSome_replicate_none {α : Type} (k : Nat) :
    (List.replicate k (none : Option α)).filter (fun o => o.isSome) = [] := by
  induction k with
  | zero => rfl
  | succ k ih => simp [List.replicate_succ, List.filter_cons, ih]

theorem groupByCount_ne_nil {α : Type} (count : Nat) (l : List α)
    (hc : count ≠ 0) (hl : l ≠ []) : groupByCount count l ≠ [] := by
  rw [groupByCount, dif_neg (by simp [List.isEmpty_iff, hl, hc])]
  simp

theorem stripLast_cons {α : Type} (b : List (Option α)) (rest : List (List (Option α)))
    (h : rest ≠ []) : stripLast (b :: rest) = b :: stripLast rest := by
  match rest with
  | r :: rs => rfl

theorem flatten_stripLast_groupByCount {α : Type} (count : Nat) (hc : 0 < count) :
    ∀ (n : Nat) (l : List α), l.length ≤ n →
      (stripLast (groupByCount count l)).flatten = l.map some := by
  intro n
  induction n with
  | zero =>
    intro l hl
    have h0 : l = [] := List.length_eq_zero.mp (Nat.le_zero.mp hl)
    subst h0
    simp [groupByCount, stripLast]
  | succ n ih =>
    intro l hl
    by_cases hl0 : l = []
    · subst hl0
      simp [groupByCount, stripLast]
    · rw [groupByCount, dif_neg (by simp [List.isEmpty_iff, hl0]; omega)]
      by_cases hrest : l.drop count = []
      · rw [groupByCount, dif_pos (Or.inl (by simp [List.isEmpty_iff, hrest]))]
        have htake : l.take count = l := by
          have hle : l.length ≤ count := List.drop_eq_nil_iff.mp hrest
          exact List.take_of_length_le hle
        simp only [stripLast, List.flatten, List.append_nil]
        rw [List.filter_append, filter_isSome_map_some, filter_isSome_replicate_none,
          List.append_nil, htake]
      · have hgb : groupByCount count (l.drop count) ≠ [] :=
          groupByCount_ne_nil count (l.drop count) (by omega) hrest
        rw [stripLast_cons _ _ hgb, List.flatten_cons]
        have hlen2 : (l.drop count).length ≤ n := by
          simp only [List.length_drop]
          have : 0 < l.length := List.length_pos.mpr hl0
          omega
        rw [ih (l.drop count) hlen2]
        have hcnt : count - l.length = 0 := by
          have hlt : count < l.length := by
            by_contra hge
            exact hrest (List.drop_eq_nil_iff.mpr (by omega))
          omega
        rw [hcnt]
        simp only [List.replicate_zero, List.append_nil]
        rw [← List.map_append, List.take_append_drop]

/-- C6: with the batch size `predict_batch_json` uses (the number of input
sentences, non-zero since there is at least one sentence), the stripped
batches flatten to exactly the instance list tagged `some`: no padding
placeholder (`none`) is contained in any batch dispatched to the model, and
the flattened model-output sequence has exactly one entry per input
instance. -/
theorem predict_batch_json_no_padding {S I : Type} (split : S → List I)
    (runModel : I → ModelOut) (inputs : List S) (h : inputs ≠ []) :
    (stripLast (groupByCount inputs.length ((inputs.map split).flatten))).flatten
        = ((inputs.map split).flatten).map some
    ∧ (∀ b ∈ stripLast (groupByCount inputs.length ((inputs.map split).flatten)),
        (none : Option I) ∉ b)
    ∧ ((((stripLast (groupByCount inputs.length ((inputs.map split).flatten))).flatten).filterMap
          id).map runModel).length = ((inputs.map split).flatten).length := by
  have hc : 0 < inputs.length := List.length_pos.mpr h
  have hmain := flatten_stripLast_groupByCount inputs.length hc
      ((inputs.map split).flatten).length ((inputs.map split).flatten) le_rfl
  refine ⟨hmain, ?_, ?_⟩
  · intro b hb hnone
    have hmem : (none : Option I)
        ∈ (stripLast (groupByCount inputs.length ((inputs.map split).flatten))).flatten :=
      List.mem_flatten.mpr ⟨b, hb, hnone⟩
    rw [hmain] at hmem
    simp at hmem
  · have hfm : ∀ L : List I, (L.map some).filterMap id = L := by
      intro L
      induction L with
      | nil => rfl
      | cons a L ih => simp [List.filterMap_cons, ih]
    rw [hmain, hfm, List.length_map]

/-- Witness for C6 on two sentences with five instances and batch size 2:
the final chunk is padded and the padding is stripped. -/
theorem predict_batch_json_no_padding_app :
    ((["a", "b"].map (fun s => if s = "a" then [0, 1, 2] else [3, 4])).flatten).map some
        = [some 0, some 1, some 2, some 3, some 4]
    ∧ (stripLast (groupByCount (["a", "b"] : List String).length
          ((["a", "b"].map (fun s => if s = "a" then [0, 1, 2] else [3, 4])).flatten))).flatten
        = ((["a", "b"].map (fun s => if s = "a" then [0, 1, 2] else [3, 4])).flatten).map some := by
  constructor
  · decide
  · exact (predict_batch_json_no_padding (fun s => if s = "a" then [0, 1, 2] else [3, 4])
      (fun _ => ⟨["w"], "v", ["O"], "F"⟩) ["a", "b"] (by decide)).1

/-! ## Regrouping preserves per-sentence counts and order -/

theorem filterMap_id_map_some {α : Type} (L : List α) : (L.map some).filterMap id = L := by
  induction L with
  | nil => rfl
  | cons a L ih => simp [List.filterMap_cons, ih]

theorem regroupOutputs_length {S : Type} (tokenize : S → List String) :
    ∀ (pairs : List (S × Nat)) (outs : List ModelOut),
      (regroupOutputs tokenize outs pairs).length = pairs.length
  | [], _ => rfl
  | (s, c) :: rest, outs => by
    simp only [regroupOutputs, List.length_cons]
    rw [regroupOutputs_length tokenize rest (outs.drop c)]

theorem regroupOutputs_verbs {S I : Type} (tokenize : S → List String) (split : S → List I)
    (runModel : I → ModelOut) :
    ∀ (sents : List S) (i : Nat) (hi : i < sents.length),
      ((regroupOutputs tokenize (((sents.map split).flatten).map runModel)
          (sents.zip ((sents.map split).map List.length)))[i]?).map SentenceResult.verbs
        = some ((split sents[i]).map (fun inst => mkVerbDict (runModel inst)))
  | s :: rest, 0, hi => by
    simp only [List.map_cons, List.flatten_cons, List.zip_cons_cons, regroupOutputs,
      List.getElem?_cons_zero, List.getElem_cons_zero, Option.map_some]
    have hverbs : (assembleSentence tokenize ((split s ++ (rest.map split).flatten).map runModel)
        s (split s).length).verbs = (split s).map (fun inst => mkVerbDict (runModel inst)) := by
      by_cases hc0 : (split s).length = 0
      · have hnil : split s = [] := List.length_eq_zero.mp hc0
        simp [assembleSentence, hc0, hnil]
      · simp only [assembleSentence, if_neg hc0]
        have htake : ((split s ++ (rest.map split).flatten).map runModel).take (split s).length
            = (split s).map runModel := by
          rw [List.map_append]
          exact List.take_left' (by simp)
        rw [htake, List.map_map]
        rfl
    exact congrArg some hverbs
  | s :: rest, i + 1, hi => by
    simp only [List.map_cons, List.flatten_cons, List.zip_cons_cons, regroupOutputs,
      List.getElem?_cons_succ, List.getElem_cons_succ]
    have hdrop : ((split s ++ (rest.map split).flatten).map runModel).drop (split s).length
        = ((rest.map split).flatten).map runModel := by
      rw [List.map_append]
      exact List.drop_left' (by simp)
    rw [hdrop]
    exact regroupOutputs_verbs tokenize split runModel rest i (by simpa using hi)

/-- C2: `predict_batch_json` returns exactly one result per input sentence,
and the i-th result's verb list is exactly the per-instance decoded outputs
of the i-th sentence's predicate instances, in the order the instance
splitter produced them: regrouping never reorders or drops predicates within
a sentence. -/
theorem predict_batch_json_regroup_order {S I : Type} (tokenize : S → List String)
    (split : S → List I) (runModel : I → ModelOut) (inputs : List S) :
    (predict_batch_json tokenize split runModel inputs).length = inputs.length
    ∧ ∀ i, ∀ hi : i < inputs.length,
        ((predict_batch_json tokenize split runModel inputs)[i]?).map SentenceResult.verbs
          = some ((split inputs[i]).map (fun inst => mkVerbDict (runModel inst))) := by
  by_cases hemp : ((inputs.map split).flatten).isEmpty = true
  · have hpred : predict_batch_json tokenize split runModel inputs
        = inputs.map (fun s => { words := tokenize s, verbs := [] }) := by
      simp only [predict_batch_json, if_pos hemp]
    have hsp : ∀ s ∈ inputs, split s = [] := by
      intro s hs
      have hfl : (inputs.map split).flatten = [] := List.isEmpty_iff.mp hemp
      exact List.flatten_eq_nil_iff.mp hfl (split s) (List.mem_map_of_mem split hs)
    refine ⟨by rw [hpred]; simp, ?_⟩
    intro i hi
    rw [hpred, List.getElem?_eq_getElem (by simpa using hi)]
    simp only [List.getElem_map, Option.map_some]
    rw [hsp inputs[i] (List.getElem_mem hi)]
    rfl
  · have hne : inputs ≠ [] := by
      intro he
      subst he
      simp at hemp
    have hc : 0 < inputs.length := List.length_pos.mpr hne
    have hmain := flatten_stripLast_groupByCount inputs.length hc
        ((inputs.map split).flatten).length ((inputs.map split).flatten) le_rfl
    have hpred : predict_batch_json tokenize split runModel inputs
        = regroupOutputs tokenize (((inputs.map split).flatten).map runModel)
            (inputs.zip ((inputs.map split).map List.length)) := by
      simp only [predict_batch_json, if_neg hemp]
      rw [hmain, filterMap_id_map_some]
    refine ⟨?_, ?_⟩
    · rw [hpred, regroupOutputs_length]
      rw [List.length_zip _ _]
      simp
    · intro i hi
      rw [hpred]
      exact regroupOutputs_verbs tokenize split runModel inputs i hi

/-- Witness for C2 on two sentences, the first with two predicate instances
and the second with none. -/
theorem predict_batch_json_regroup_order_app :
    (predict_batch_json (fun s : String => [s]) (fun s : String => if s = "x" then [1, 2] else [])
        (fun _ : Nat => ⟨["w"], "v", ["O"], "F"⟩) ["x", "y"]).length = 2
    ∧ ((predict_batch_json (fun s : String => [s])
          (fun s : String => if s = "x" then [1, 2] else [])
          (fun _ : Nat => ⟨["w"], "v", ["O"], "F"⟩) ["x", "y"])[0]?).map SentenceResult.verbs
      = some ([1, 2].map (fun _ => mkVerbDict ⟨["w"], "v", ["O"], "F"⟩)) := by
  obtain ⟨h1, h2⟩ := predict_batch_json_regroup_order (fun s : String => [s])
      (fun s : String => if s = "x" then [1, 2] else [])
      (fun _ : Nat => ⟨["w"], "v", ["O"], "F"⟩) ["x", "y"]
  exact ⟨h1, h2 0 (by decide)⟩

/-! ## Zero-predicate sentences -/

theorem regroupOutputs_zero_entry {S I : Type} (tokenize : S → List String) (split : S → List I)
    (runModel : I → ModelOut) :
    ∀ (sents : List S) (i : Nat) (hi : i < sents.length), split sents[i] = [] →
      (regroupOutputs tokenize (((sents.map split).flatten).map runModel)
          (sents.zip ((sents.map split).map List.length)))[i]?
        = some { words := tokenize sents[i], verbs := [] }
  | s :: rest, 0, hi, hz => by
    simp only [List.map_cons, List.flatten_cons, List.zip_cons_cons, regroupOutputs,
      List.getElem?_cons_zero, List.getElem_cons_zero] at hz ⊢
    simp [assembleSentence, hz]
  | s :: rest, i + 1, hi, hz => by
    simp only [List.map_cons, List.flatten_cons, List.zip_cons_cons, regroupOutputs,
      List.getElem?_cons_succ, List.getElem_cons_succ] at hz ⊢
    have hdrop : ((split s ++ (rest.map split).flatten).map runModel).drop (split s).length
        = ((rest.map split).flatten).map runModel := by
      rw [List.map_append]
      exact List.drop_left' (by simp)
    rw [hdrop]
    exact regroupOutputs_zero_entry tokenize split runModel rest i (by simpa using hi) hz

theorem flatten_map_eraseIdx {S I : Type} (split : S → List I) :
    ∀ (l : List S) (i : Nat) (hi : i < l.length), split l[i] = [] →
      (l.map split).flatten = ((l.eraseIdx i).map split).flatten
  | s :: rest, 0, hi, hz => by
    simp only [List.getElem_cons_zero] at hz
    simp only [List.eraseIdx_cons_zero, List.map_cons, List.flatten_cons, hz, List.nil_append]
  | s :: rest, i + 1, hi, hz => by
    simp only [List.getElem_cons_succ] at hz
    simp only [List.eraseIdx_cons_succ, List.map_cons, List.flatten_cons]
    rw [flatten_map_eraseIdx split rest i (by simpa using hi) hz]

/-- C7: a sentence whose instance splitter yields no predicate instances gets
a result consisting of its tokenized words and an empty verb list (never an
error), and it contributes no instance to the flattened instance list that is
batched and sent to the model: removing the sentence leaves that list
unchanged. -/
theorem predict_batch_json_zero_verb_sentence {S I : Type} (tokenize : S → List String)
    (split : S → List I) (runModel : I → ModelOut) (inputs : List S) (i : Nat)
    (hi : i < inputs.length) (hz : split inputs[i] = []) :
    (predict_batch_json tokenize split runModel inputs)[i]?
        = some { words := tokenize inputs[i], verbs := [] }
    ∧ (inputs.map split).flatten = ((inputs.eraseIdx i).map split).flatten := by
  refine ⟨?_, flatten_map_eraseIdx split inputs i hi hz⟩
  by_cases hemp : ((inputs.map split).flatten).isEmpty = true
  · have hpred : predict_batch_json tokenize split runModel inputs
        = inputs.map (fun s => { words := tokenize s, verbs := [] }) := by
      simp only [predict_batch_json, if_pos hemp]
    rw [hpred, List.getElem?_eq_getElem (by simpa using hi)]
    simp only [List.getElem_map]
  · have hne : inputs ≠ [] := by
      intro he
      subst he
      simp at hemp
    have hc : 0 < inputs.length := List.length_pos.mpr hne
    have hmain := flatten_stripLast_groupByCount inputs.length hc
        ((inputs.map split).flatten).length ((inputs.map split).flatten) le_rfl
    have hpred : predict_batch_json tokenize split runModel inputs
        = regroupOutputs tokenize (((inputs.map split).flatten).map runModel)
            (inputs.zip ((inputs.map split).map List.length)) := by
      simp only [predict_batch_json, if_neg hemp]
      rw [hmain, filterMap_id_map_some]
    rw [hpred]
    exact regroupOutputs_zero_entry tokenize split runModel inputs i hi hz

/-- Witness for C7: the second sentence has no predicate instances. -/
theorem predict_batch_json_zero_verb_sentence_app :
    (predict_batch_json (fun s : String => [s]) (fun s : String => if s = "x" then [1, 2] else [])
        (fun _ : Nat => ⟨["w"], "v", ["O"], "F"⟩) ["x", "y"])[1]?
      = some { words := ["y"], verbs := [] } := by
  exact (predict_batch_json_zero_verb_sentence (fun s : String => [s])
      (fun s : String => if s = "x" then [1, 2] else [])
      (fun _ : Nat => ⟨["w"], "v", ["O"], "F"⟩) ["x", "y"] 1 (by decide) (by decide)).1
